import Mathlib

/-!
Shallow embedding of the scaled-integer arithmetic kernel of the
`fixed-precision` repository (src/FixedPrecision.ts and src/FixedDecimal.ts).

A value is represented by its mantissa, a `bigint` in the source, embedded as
`Int`.  The context's decimal-places count `p` gives the scale factor
`10 ^ p`.  JavaScript `bigint` division and remainder truncate toward zero,
which is `Int.tdiv` / `Int.tmod`.  Fallible methods (the source throws) are
embedded as `Option`, with `none` for the thrown error.

String-producing code in the source works on the decimal string returned by
`BigInt.prototype.toString`; we embed those string manipulations exactly
(JavaScript `slice` with negative indices, `padStart`, template
concatenation) over `List Char`.
-/

/-- The nine rounding modes of `FixedPrecision` (source enumerates them as the
numbers 0..8: UP, DOWN, CEIL, FLOOR, HALF_UP, HALF_DOWN, HALF_EVEN, HALF_CEIL,
HALF_FLOOR). -/
inductive RoundingMode : Type
| up
| down
| ceil
| floor
| halfUp
| halfDown
| halfEven
| halfCeil
| halfFloor
deriving DecidableEq

/-- JavaScript `String.prototype.padStart(n, c)`: pad on the left up to length
`n` (no-op when already at least that long). -/
def padStart (s : List Char) (n : Nat) (c : Char) : List Char :=
  List.replicate (n - s.length) c ++ s

/-- JavaScript `String.prototype.slice(start, stop)` with the ECMAScript
clamping rules for negative and out-of-range indices. -/
def jsSlice2 (s : List Char) (start stop : Int) : List Char :=
  let len : Int := s.length
  let a := if start < 0 then max (len + start) 0 else min start len
  let b := if stop < 0 then max (len + stop) 0 else min stop len
  if a < b then (s.drop a.toNat).take (b - a).toNat else []

/-- JavaScript one-argument `slice(start)` (the end defaults to the length). -/
def jsSlice1 (s : List Char) (start : Int) : List Char :=
  jsSlice2 s start s.length

/-- The decimal rendering of a `bigint`: `BigInt.prototype.toString()` —
minus sign for negatives, no leading zeros, `"0"` for zero.  `Int`'s
`toString` has exactly this format. -/
def intChars (v : Int) : List Char :=
  (toString v).toList

/-- Numeric value of a decimal-digit string with optional leading minus, as
JavaScript `Number(...)` / `BigInt(...)` produce on the well-formed integer
strings the parser feeds them (the empty string reads as 0, as `Number("")`
does). -/
def strToInt (s : List Char) : Int :=
  match s with
  | '-' :: rest => -(rest.foldl (fun a c => a * 10 + (c.toNat - '0'.toNat)) 0 : Nat)
  | _ => (s.foldl (fun a c => a * 10 + (c.toNat - '0'.toNat)) 0 : Nat)

/-- JavaScript `String.prototype.split('.')`. -/
def splitOnDot : List Char → List (List Char)
| [] => [[]]
| c :: rest =>
  let r := splitOnDot rest
  if c = '.' then [] :: r
  else
    match r with
    | h :: t => (c :: h) :: t
    | [] => [[c]]

/-- `FixedPrecision` constructor on a `bigint` argument (`case 'bigint':
this.value = val * FixedPrecision.SCALE`): the input is multiplied by the
scale factor `S = 10 ^ places`. -/
def fpFromBigint (S v : Int) : Int :=
  v * S

/-- `FixedDecimal` constructor on a `bigint` argument (`this.value = val`):
the input is stored as the mantissa unchanged. -/
def fdFromBigint (v : Int) : Int :=
  v

/-- `FixedPrecision.toString(value)`: renders the scaled bigint by slicing the
decimal string `s = value.toString()`:
`intPart = s.slice(sign ? 1 : 0, -places) || '0'`,
`fracPart = s.slice(-places)` padded on the left with `'0'` to `places`
characters, joined as `[-]intPart.fracPart`. -/
def fpToString (p : Nat) (v : Int) : String :=
  let s := intChars v
  let neg := v < 0
  let intPart0 := if neg then jsSlice2 s 1 (-(p : Int)) else jsSlice2 s 0 (-(p : Int))
  let intPart := if intPart0 = [] then ['0'] else intPart0
  let frac0 := jsSlice1 s (-(p : Int))
  let fracPart := if frac0.length < p then padStart frac0 p '0' else frac0
  if neg then
    if fracPart ≠ [] then String.mk ('-' :: intPart ++ '.' :: fracPart)
    else String.mk ('-' :: intPart)
  else
    if fracPart ≠ [] then String.mk (intPart ++ '.' :: fracPart)
    else String.mk intPart

/-- `FixedDecimal.toString(value)`: `intPart = value / 10^p`,
`fracPart = value % 10^p` (truncating bigint ops), rendered as
`intPart + "." + abs(fracPart) padded to p digits`, and `intPart + ".00000000"`
when the fraction is zero (eight literal zeros in the source).  The source's
two branches on the magnitude of `intPart` only choose between `Number` and
`BigInt` rendering, which produce the same digits for safe integers; they are
collapsed here. -/
def fdToString (p : Nat) (v : Int) : String :=
  if v = 0 then "0"
  else
    let intPart := v.tdiv ((10 : Int) ^ p)
    let fracPart := v.tmod ((10 : Int) ^ p)
    if fracPart ≠ 0 then
      String.mk (intChars intPart ++ '.' :: padStart (intChars (fracPart.natAbs : Int)) p '0')
    else
      String.mk (intChars intPart ++ ".00000000".toList)

/-- `FixedPrecision.fromString` (the variant with the explicit
`split('.')`): splits on `'.'`, rejects more than one dot, truncates excess
fractional digits to `places`, right-pads missing ones by the power of ten
`10 ^ (places - len)`, and combines
`integerPart * 10^places + sign * decimal`.  The source's small-magnitude
`Number` fast path and the `BigInt` path compute this same value (the guard
`integerPart.length + places < 16` keeps the float arithmetic exact); they
are collapsed into the exact integer formula. -/
def fromString (p : Nat) (s : String) : Option Int :=
  let parts := splitOnDot s.toList
  if parts.length > 2 then none
  else
    let ip0 := parts.getD 0 []
    let integerPart := if ip0 = [] then ['0'] else ip0
    if parts.length < 2 then
      some (strToInt integerPart * (10 : Int) ^ p)
    else
      let dp0 := parts.getD 1 []
      let decimalPart0 := if dp0 = [] then ['0'] else dp0
      let decimalPart := if decimalPart0.length > p then decimalPart0.take p else decimalPart0
      let len := decimalPart.length
      let decimal := if len = p then strToInt decimalPart
                     else strToInt decimalPart * (10 : Int) ^ (p - len)
      let sign : Int := if integerPart.headD ' ' = '-' then -1 else 1
      some (strToInt integerPart * (10 : Int) ^ p + sign * decimal)

/-- `FixedPrecision.div`: throws `Division by zero` when the divisor mantissa
is zero, otherwise `(m1 * SCALE) / m2` with truncating bigint division. -/
def fpDiv (S m1 m2 : Int) : Option Int :=
  if m2 = 0 then none else some ((m1 * S).tdiv m2)

/-- `FixedPrecision.mod`: throws on a zero divisor, otherwise
`(m1 * SCALE) % m2` (truncating remainder). -/
def fpMod (S m1 m2 : Int) : Option Int :=
  if m2 = 0 then none else some ((m1 * S).tmod m2)

/-- `FixedPrecision.fraction` (raw): throws on a zero divisor, otherwise the
plain mantissa quotient `m1 / m2` with no scale pre-multiplication. -/
def fpFraction (m1 m2 : Int) : Option Int :=
  if m2 = 0 then none else some (m1.tdiv m2)

/-- `FixedPrecision.leftover` (raw): throws on a zero divisor, otherwise the
plain mantissa remainder `m1 % m2`. -/
def fpLeftover (m1 m2 : Int) : Option Int :=
  if m2 = 0 then none else some (m1.tmod m2)

/-- `FixedPrecision.pow` (the variant guarding integer exponents; the exponent
is already integral here by its `Int` type): computes
`fromRaw(value ** |exp|).div(fromRaw(SCALE ** |exp|))` and, for a negative
exponent, inverts via `new FixedPrecision(1n).div(result)` — note the bigint
constructor scales `1n` to `1 * SCALE`. -/
def fpPow (S v : Int) (exp : Int) : Option Int :=
  let n := exp.natAbs
  match fpDiv S (v ^ n) (S ^ n) with
  | none => none
  | some result => if exp < 0 then fpDiv S (fpFromBigint S 1) result else some result

/-- `FixedPrecision.roundToScale(roundingFactor, rm)`: truncating quotient and
remainder of the mantissa by the factor, then a ±1 adjustment chosen by the
rounding mode exactly as the source's `switch`. -/
def roundToScale (v : Int) (f : Int) (rm : RoundingMode) : Int :=
  let quotient := v.tdiv f
  let remainder := v.tmod f
  let absRem := if remainder < 0 then -remainder else remainder
  match rm with
  | .up => if remainder = 0 then quotient else if v > 0 then quotient + 1 else quotient - 1
  | .down => quotient
  | .ceil => if v > 0 ∧ remainder ≠ 0 then quotient + 1 else quotient
  | .floor => if v < 0 ∧ remainder ≠ 0 then quotient - 1 else quotient
  | .halfUp => if 2 * absRem ≥ f then (if v > 0 then quotient + 1 else quotient - 1) else quotient
  | .halfDown => if 2 * absRem > f then (if v > 0 then quotient + 1 else quotient - 1) else quotient
  | .halfEven =>
      if 2 * absRem = f then
        (if quotient.tmod 2 = 0 then quotient else if v > 0 then quotient + 1 else quotient - 1)
      else if 2 * absRem > f then (if v > 0 then quotient + 1 else quotient - 1) else quotient
  | .halfCeil =>
      if 2 * absRem = f then (if v > 0 then quotient + 1 else quotient)
      else if 2 * absRem > f then (if v > 0 then quotient + 1 else quotient) else quotient
  | .halfFloor =>
      if 2 * absRem = f then (if v < 0 then quotient - 1 else quotient)
      else if 2 * absRem > f then (if v > 0 then quotient + 1 else quotient - 1) else quotient

/-- `FixedPrecision.round(dp, rm)`: rejects `dp < 0 || dp > places`, otherwise
rounds at `factor = 10 ^ (places - dp)` and re-multiplies the factor back. -/
def fpRound (p : Nat) (dp : Int) (rm : RoundingMode) (v : Int) : Option Int :=
  if dp < 0 ∨ (p : Int) < dp then none
  else
    let factor := (10 : Int) ^ ((p : Int) - dp).toNat
    some (roundToScale v factor rm * factor)

/-- `FixedPrecision.scale(newScale, rm)`: same body as `round` with the
`newScale` range check. -/
def fpScale (p : Nat) (newScale : Int) (rm : RoundingMode) (v : Int) : Option Int :=
  if newScale < 0 ∨ (p : Int) < newScale then none
  else
    let factor := (10 : Int) ^ ((p : Int) - newScale).toNat
    some (roundToScale v factor rm * factor)

/-- `FixedPrecision.shiftedBy(n)`: multiply the mantissa by `10 ^ |n|` when
`n ≥ 0`; for `n < 0` divide exactly, throwing `Inexact shift` when
`value % 10^|n| ≠ 0`. -/
def shiftedBy (n : Int) (v : Int) : Option Int :=
  let shiftFactor := (10 : Int) ^ n.natAbs
  if 0 ≤ n then some (v * shiftFactor)
  else if v.tmod shiftFactor ≠ 0 then none
  else some (v.tdiv shiftFactor)

/-- The body of `FixedPrecision.toFixed` as written, over the `places`
argument as the body sees it: `decPlaces = places !== undefined ? places :
format.places` (the `none` case is the body's fallback to the configured
places), then the range check, rounding at `10 ^ (places - decPlaces)`, and
rendering `intPart[.fracPart]` with `decPlaces` fractional digits. -/
def toFixedBody (p : Nat) (placesOpt : Option Int) (rm : RoundingMode) (v : Int) : Option String :=
  let decPlaces : Int := match placesOpt with
    | some x => x
    | none => (p : Int)
  if decPlaces < 0 ∨ (p : Int) < decPlaces then none
  else
    let diff := ((p : Int) - decPlaces).toNat
    let roundingFactor := (10 : Int) ^ diff
    let scaled := roundToScale v roundingFactor rm
    let divisor := (10 : Int) ^ decPlaces.toNat
    let intPart := scaled.tdiv divisor
    let fracPart := padStart (intChars (scaled.tmod divisor)) decPlaces.toNat '0'
    some (if 0 < decPlaces then String.mk (intChars intPart ++ '.' :: fracPart)
          else String.mk (intChars intPart))

/-- `FixedPrecision.toFixed(places = 0, rm)`: the parameter default `0` fires
before the body runs (an omitted argument reaches the body as `0`, never as
`undefined`), so the body's fallback branch never executes. -/
def toFixed (p : Nat) (placesArg : Option Int) (rm : RoundingMode) (v : Int) : Option String :=
  toFixedBody p (some (placesArg.getD 0)) rm v

/-- C1: the claim says a bigint input is stored as the mantissa unchanged, so
`123` under places=8 renders as "0.00000123".  `FixedDecimal`'s constructor
does exactly that, but `FixedPrecision`'s constructor multiplies the bigint by
the scale factor, so `new FixedPrecision(123n)` has mantissa `12300000000` and
renders as "123.00000000", contradicting the claim (and the repository's own
documentation of bigint inputs as pre-scaled). -/
theorem bigint_constructor_scales_bug :
    fpFromBigint ((10 : Int) ^ 8) 123 = 12300000000 ∧
    fpToString 8 (fpFromBigint ((10 : Int) ^ 8) 123) = "123.00000000" ∧
    fdFromBigint 123 = 123 ∧
    fdToString 8 (fdFromBigint 123) = "0.00000123" := by
  refine ⟨by decide, by decide, rfl, by decide⟩

/-- C2 counterexample: at the exact tie `mantissa = -15`, `factor = 10`
(`2·|−5| = 10`), HALF_CEIL returns the truncated quotient `-1`, not the
claimed `quotient + 1 = 0`; and at the non-tie `mantissa = -16` past the
halfway point it again returns `-1`, not the HALF_UP value
`quotient - 1 = -2` the claim asserts for negative values. -/
theorem halfCeil_claim_counterexample :
    (roundToScale (-15) 10 RoundingMode.halfCeil = -1 ∧
      Int.tdiv (-15) 10 + 1 = 0 ∧ (-1 : Int) ≠ 0) ∧
    (roundToScale (-16) 10 RoundingMode.halfCeil = -1 ∧
      Int.tdiv (-16) 10 - 1 = -2 ∧ (-1 : Int) ≠ -2) := by
  refine ⟨⟨by decide, by decide, by decide⟩, ⟨by decide, by decide, by decide⟩⟩

/-- C2 (amended): under HALF_CEIL the truncated quotient is adjusted by `+1`
exactly when the mantissa is positive and `2·|remainder| ≥ divisorFactor`
(tie or beyond); a non-positive mantissa is never adjusted — at a tie the
truncated quotient already lies toward +∞, and past the halfway point the
HALF_UP adjustment `-1` the spec prescribes does not happen. -/
theorem halfCeil_adjusts_only_positive :
    ∀ (m : Int) (k : Nat),
      roundToScale m ((10 : Int) ^ k) RoundingMode.halfCeil =
        (if 0 < m ∧ (10 : Int) ^ k ≤ 2 * ((Int.tmod m ((10 : Int) ^ k)).natAbs : Int)
         then Int.tdiv m ((10 : Int) ^ k) + 1
         else Int.tdiv m ((10 : Int) ^ k)) := by
  intro m k
  have hf : (0 : Int) < 10 ^ k := pow_pos (by norm_num) k
  simp only [roundToScale]
  split_ifs <;> omega

/-- C3: the claim says `toString` always renders with a single leading '-'
and a fractional part of exactly `places` digits.  That fails for negative
mantissas with fewer digits than `places`: the string slice `s.slice(-places)`
keeps the minus sign inside the fraction, so mantissa `-5` under places=8
renders as "-0.000000-5", not "-0.00000005".  Negative values with enough
digits, and zero, do render as claimed. -/
theorem toString_small_negative_mangled :
    fpToString 8 (-5) = "-0.000000-5" ∧
    fpToString 8 (-500000001) = "-5.00000001" ∧
    fpToString 8 0 = "0.00000000" := by
  refine ⟨by decide, by decide, by decide⟩

/-- C4: `div`, `mod`, `fraction` (raw) and `leftover` (raw) throw exactly when
the divisor mantissa is zero; for a non-zero divisor `div` returns
`(m1 · scale) / m2` by truncating division, whose quotient recombines with the
truncating remainder to the scaled dividend. -/
theorem div_mod_zero_divisor :
    ∀ (S a b : Int),
      (fpDiv S a b = none ↔ b = 0) ∧
      (fpMod S a b = none ↔ b = 0) ∧
      (fpFraction a b = none ↔ b = 0) ∧
      (fpLeftover a b = none ↔ b = 0) ∧
      (b ≠ 0 → fpDiv S a b = some ((a * S).tdiv b) ∧
        b * (a * S).tdiv b + Int.tmod (a * S) b = a * S) := by
  intro S a b
  by_cases hb : b = 0
  · simp [fpDiv, fpMod, fpFraction, fpLeftover, hb]
  · refine ⟨?_, ?_, ?_, ?_, fun _ => ⟨?_, ?_⟩⟩
    · simp [fpDiv, hb]
    · simp [fpMod, hb]
    · simp [fpFraction, hb]
    · simp [fpLeftover, hb]
    · simp [fpDiv, hb]
    · have := Int.tmod_add_tdiv (a * S) b
      omega

/-- C4 witness: the characterization applied at scale 10^8, dividend mantissa
10·10^8 and divisors 4·10^8 and 0. -/
theorem div_mod_zero_divisor_witness :
    fpDiv ((10 : Int) ^ 8) 1000000000 400000000 = some ((1000000000 * (10 : Int) ^ 8).tdiv 400000000) ∧
    fpDiv ((10 : Int) ^ 8) 1000000000 0 = none := by
  exact ⟨((div_mod_zero_divisor ((10 : Int) ^ 8) 1000000000 400000000).2.2.2.2 (by decide)).1,
    (div_mod_zero_divisor ((10 : Int) ^ 8) 1000000000 0).1.mpr rfl⟩

/-- C5: `pow` with a negative integer exponent is the reciprocal
`new FixedPrecision(1n).div(result)` of the positive-exponent result; it fails
(division by zero) when the base is zero and the exponent negative; and under
the default 8-place context the value parsed from "2.00" raised to -2 prints
as "0.25000000". -/
theorem pow_negative_exponent :
    (∀ (p : Nat) (v e : Int), e < 0 →
      fpPow ((10 : Int) ^ p) v e =
        (fpPow ((10 : Int) ^ p) v (-e)).bind
          (fun r => fpDiv ((10 : Int) ^ p) (fpFromBigint ((10 : Int) ^ p) 1) r)) ∧
    (∀ (p : Nat) (e : Int), e < 0 → fpPow ((10 : Int) ^ p) 0 e = none) ∧
    (fromString 8 "2.00").bind
        (fun v => (fpPow ((10 : Int) ^ 8) v (-2)).map (fpToString 8)) = some "0.25000000" := by
  refine ⟨?_, ?_, by decide⟩
  · intro p v e he
    have hSn : ((10 : Int) ^ p) ^ e.natAbs ≠ 0 := pow_ne_zero _ (pow_ne_zero _ (by norm_num))
    have hneg : ¬(-e < 0) := by omega
    simp only [fpPow, Int.natAbs_neg, fpDiv, hSn, if_false, if_neg hSn, he, if_pos,
      Option.bind_some, Option.some_bind]
    simp [he, hneg]
  · intro p e he
    have hn : e.natAbs ≠ 0 := by
      intro h
      exact absurd (Int.natAbs_eq_zero.mp h) (by omega)
    have hSn : ((10 : Int) ^ p) ^ e.natAbs ≠ 0 := pow_ne_zero _ (pow_ne_zero _ (by norm_num))
    simp [fpPow, fpDiv, hSn, zero_pow hn, Int.zero_tdiv, he, fpFromBigint]

/-- C5 witness: the reciprocal identity applied at places=8, base mantissa
2·10^8 (the parse of "2.00"), exponent -2, and the zero-base failure at
exponent -1. -/
theorem pow_negative_exponent_witness :
    fpPow ((10 : Int) ^ 8) 200000000 (-2) =
      (fpPow ((10 : Int) ^ 8) 200000000 (-(-2))).bind
        (fun r => fpDiv ((10 : Int) ^ 8) (fpFromBigint ((10 : Int) ^ 8) 1) r) ∧
    fpPow ((10 : Int) ^ 8) 0 (-1) = none := by
  exact ⟨pow_negative_exponent.1 8 200000000 (-2) (by decide),
    pow_negative_exponent.2.1 8 (-1) (by decide)⟩

/-- C6: at an exact tie (`2·|remainder| = 10^k`) HALF_EVEN produces an even
quotient: the truncated quotient is kept when already even, and adjusted by
one away from zero (+1 for a positive mantissa, -1 for a negative one) when
odd. -/
theorem halfEven_tie_even :
    ∀ (m : Int) (k : Nat),
      2 * ((Int.tmod m ((10 : Int) ^ k)).natAbs : Int) = (10 : Int) ^ k →
      (2 ∣ roundToScale m ((10 : Int) ^ k) RoundingMode.halfEven ∧
       (2 ∣ Int.tdiv m ((10 : Int) ^ k) →
         roundToScale m ((10 : Int) ^ k) RoundingMode.halfEven = Int.tdiv m ((10 : Int) ^ k)) ∧
       (¬ 2 ∣ Int.tdiv m ((10 : Int) ^ k) →
         roundToScale m ((10 : Int) ^ k) RoundingMode.halfEven =
           Int.tdiv m ((10 : Int) ^ k) + (if 0 < m then 1 else -1))) := by
  intro m k htie
  have hf : (0 : Int) < 10 ^ k := pow_pos (by norm_num) k
  have hq : Int.tmod (Int.tdiv m ((10 : Int) ^ k)) 2 = 0 ↔ 2 ∣ Int.tdiv m ((10 : Int) ^ k) :=
    (Int.dvd_iff_tmod_eq_zero (a := 2) (b := Int.tdiv m ((10 : Int) ^ k))).symm
  simp only [roundToScale]
  split_ifs <;> omega

/-- C6 witness: the tie `mantissa = 25`, `factor = 10^1` (quotient 2, already
even) is kept, and the result is even. -/
theorem halfEven_tie_even_witness :
    2 * ((Int.tmod 25 ((10 : Int) ^ 1)).natAbs : Int) = (10 : Int) ^ 1 ∧
    roundToScale 25 ((10 : Int) ^ 1) RoundingMode.halfEven = Int.tdiv 25 ((10 : Int) ^ 1) ∧
    2 ∣ roundToScale 25 ((10 : Int) ^ 1) RoundingMode.halfEven := by
  have h := halfEven_tie_even 25 1 (by decide)
  exact ⟨by decide, h.2.1 (by decide), h.1⟩

/-- Rounding a mantissa that is an exact multiple of the rounding factor never
adjusts: the remainder is zero, so every one of the nine modes keeps the
truncated quotient. -/
theorem roundToScale_mul_cancel (r f : Int) (rm : RoundingMode) (hf : 0 < f) :
    roundToScale (r * f) f rm = r := by
  have h1 : Int.tmod (r * f) f = 0 := Int.mul_tmod_left r f
  have h2 : Int.tdiv (r * f) f = r := Int.mul_tdiv_cancel r (ne_of_gt hf)
  cases rm <;> simp only [roundToScale, h1, h2] <;> split_ifs <;> omega

/-- C7: for a valid target `0 ≤ dp ≤ places` and any rounding mode,
`round(dp, rm)` is idempotent: a second application sees a zero remainder and
returns the same mantissa. -/
theorem round_idempotent :
    ∀ (p : Nat) (dp : Int) (rm : RoundingMode) (v : Int), 0 ≤ dp → dp ≤ (p : Int) →
      (fpRound p dp rm v).bind (fpRound p dp rm) = fpRound p dp rm v := by
  intro p dp rm v h0 hp
  have hcheck : ¬(dp < 0 ∨ (p : Int) < dp) := by omega
  have hf : (0 : Int) < 10 ^ ((p : Int) - dp).toNat := pow_pos (by norm_num) _
  simp only [fpRound, if_neg hcheck, Option.some_bind]
  rw [roundToScale_mul_cancel _ _ _ hf]

/-- C7 witness: rounding mantissa 12345678900 (places=8) to 4 decimal places
with HALF_UP twice equals rounding it once. -/
theorem round_idempotent_witness :
    (0 : Int) ≤ 4 ∧ (4 : Int) ≤ (8 : Nat) ∧
    (fpRound 8 4 RoundingMode.halfUp 12345678900).bind (fpRound 8 4 RoundingMode.halfUp) =
      fpRound 8 4 RoundingMode.halfUp 12345678900 := by
  exact ⟨by decide, by decide, round_idempotent 8 4 RoundingMode.halfUp 12345678900 (by decide) (by decide)⟩

/-- C8: `shiftedBy(n)` with `n ≥ 0` multiplies the mantissa by `10^n` and
`shiftedBy(n).shiftedBy(-n)` restores it; with `n < 0` it divides exactly when
`10^|n|` divides the mantissa (and shifting back restores the original), and
fails (`Inexact shift`) when it does not — it never rounds. -/
theorem shiftedBy_exact_shift :
    ∀ (v n : Int),
      (0 ≤ n → shiftedBy n v = some (v * (10 : Int) ^ n.natAbs) ∧
        (shiftedBy n v).bind (shiftedBy (-n)) = some v) ∧
      (n < 0 →
        (((10 : Int) ^ n.natAbs ∣ v →
           shiftedBy n v = some (v.tdiv ((10 : Int) ^ n.natAbs)) ∧
           (shiftedBy n v).bind (shiftedBy (-n)) = some v) ∧
         (¬ (10 : Int) ^ n.natAbs ∣ v → shiftedBy n v = none))) := by
  intro v n
  have hfpos : (0 : Int) < 10 ^ n.natAbs := pow_pos (by norm_num) _
  constructor
  · intro hn
    refine ⟨by simp [shiftedBy, hn], ?_⟩
    rcases eq_or_lt_of_le hn with h0 | hpos
    · subst h0
      simp [shiftedBy]
    · have hneg : ¬(0 ≤ -n) := by omega
      have hm : Int.tmod (v * (10 : Int) ^ n.natAbs) ((10 : Int) ^ n.natAbs) = 0 :=
        Int.mul_tmod_left _ _
      have hd : Int.tdiv (v * (10 : Int) ^ n.natAbs) ((10 : Int) ^ n.natAbs) = v :=
        Int.mul_tdiv_cancel v (ne_of_gt hfpos)
      simp [shiftedBy, hn, hneg, Int.natAbs_neg, hm, hd]
  · intro hn
    constructor
    · intro hdvd
      have hm : Int.tmod v ((10 : Int) ^ n.natAbs) = 0 := Int.tmod_eq_zero_of_dvd hdvd
      have hnneg : ¬(0 ≤ n) := by omega
      refine ⟨by simp [shiftedBy, hnneg, hm], ?_⟩
      obtain ⟨c, hc⟩ := hdvd
      have hd : Int.tdiv v ((10 : Int) ^ n.natAbs) = c := by
        rw [hc, mul_comm]
        exact Int.mul_tdiv_cancel c (ne_of_gt hfpos)
      have hpos' : (0 : Int) ≤ -n := by omega
      simp [shiftedBy, hnneg, hm, hd, Int.natAbs_neg, hpos', mul_comm c _, ← hc]
    · intro hndvd
      have hnneg : ¬(0 ≤ n) := by omega
      have hm : Int.tmod v ((10 : Int) ^ n.natAbs) ≠ 0 := by
        intro h
        exact hndvd (Int.dvd_of_tmod_eq_zero h)
      simp [shiftedBy, hnneg, hm]

/-- C8 witness: shifting mantissa 12300 (places=8) by -2 divides exactly and
shifts back to 12300; shifting 5 by +3 multiplies by 1000; shifting 12301 by
-2 fails. -/
theorem shiftedBy_exact_shift_witness :
    shiftedBy 3 5 = some (5 * (10 : Int) ^ (3 : Int).natAbs) ∧
    (shiftedBy (-2) 12300).bind (shiftedBy (-(-2))) = some 12300 ∧
    shiftedBy (-2) 12301 = none := by
  refine ⟨((shiftedBy_exact_shift 5 3).1 (by decide)).1, ?_, ?_⟩
  · exact (((shiftedBy_exact_shift 12300 (-2)).2 (by decide)).1 (by decide)).2
  · exact ((shiftedBy_exact_shift 12301 (-2)).2 (by decide)).2 (by decide)

/-- C9: `round(dp, rm)` and `scale(newScale, rm)` succeed exactly when the
target precision lies in `[0, places]`, and fail with the range error for any
argument outside it — in particular for any target strictly greater than the
context's places. -/
theorem round_scale_range_check :
    ∀ (p : Nat) (dp : Int) (rm : RoundingMode) (v : Int),
      ((fpRound p dp rm v).isSome ↔ (0 ≤ dp ∧ dp ≤ (p : Int))) ∧
      ((fpScale p dp rm v).isSome ↔ (0 ≤ dp ∧ dp ≤ (p : Int))) := by
  intro p dp rm v
  constructor
  · simp only [fpRound]
    split_ifs with h
    · simp only [Option.isSome_none, Bool.false_eq_true, false_iff]
      omega
    · simp only [Option.isSome_some, true_iff]
      omega
  · simp only [fpScale]
    split_ifs with h
    · simp only [Option.isSome_none, Bool.false_eq_true, false_iff]
      omega
    · simp only [Option.isSome_some, true_iff]
      omega

/-- C9 witness: under places=8, `round(9, ...)` and `scale(9, ...)` fail while
`round(4, ...)` and `scale(4, ...)` succeed. -/
theorem round_scale_range_check_witness :
    (fpRound 8 9 RoundingMode.halfUp 5).isSome = false ∧
    (fpScale 8 9 RoundingMode.halfUp 5).isSome = false ∧
    (fpRound 8 4 RoundingMode.halfUp 5).isSome = true ∧
    (fpScale 8 4 RoundingMode.halfUp 5).isSome = true := by
  have h9 := round_scale_range_check 8 9 RoundingMode.halfUp 5
  have h4 := round_scale_range_check 8 4 RoundingMode.halfUp 5
  refine ⟨?_, ?_, h4.1.mpr (by decide), h4.2.mpr (by decide)⟩
  · rcases h : (fpRound 8 9 RoundingMode.halfUp 5).isSome with _ | _
    · rfl
    · have := h9.1.mp h
      omega
  · rcases h : (fpScale 8 9 RoundingMode.halfUp 5).isSome with _ | _
    · rfl
    · have := h9.2.mp h
      omega

/-- C10: `toFixed()` with no argument formats with 0 decimal places — the
parameter default `0` fires, so the body behaves as `toFixed(0)` and returns
the integer string of the mantissa rounded by the whole scale factor with the
given mode; the body's fallback to the configured places is never reached
(reaching it would instead format with all 8 places, as the last conjunct
shows). -/
theorem toFixed_default_zero_places :
    (∀ (p : Nat) (rm : RoundingMode) (v : Int),
      toFixed p none rm v = toFixedBody p (some 0) rm v ∧
      toFixed p none rm v = some (String.mk (intChars (roundToScale v ((10 : Int) ^ p) rm)))) ∧
    toFixed 8 none RoundingMode.halfUp 150000000 = some "2" ∧
    toFixedBody 8 none RoundingMode.halfUp 150000000 = some "1.50000000" := by
  refine ⟨?_, by decide, by decide⟩
  intro p rm v
  refine ⟨rfl, ?_⟩
  have hc : ¬((0 : Int) < 0 ∨ (p : Int) < 0) := by omega
  simp only [toFixed, toFixedBody, Option.getD, if_neg hc, sub_zero, Int.toNat_natCast,
    Int.toNat_zero, pow_zero, Int.tdiv_one, lt_irrefl, if_false]
  split_ifs with h2
  · rcases h2 with h2 | h2
    · exact h2.elim
    · omega
  · rfl
